import Mathlib

/-
Verification of the text-extraction / round-trip logic of
`translate_ppt_deepl_app.py` (PowerPoint / Jupyter notebook FR→EN
translator).  Strings are embedded as `List Char` (Python strings index
by code point, as does `List Char`).
-/

/-- Python whitespace test: the ASCII characters removed by `str.strip()`. -/
def isPySpace (c : Char) : Bool :=
  c = ' ' || c = '\t' || c = '\n' || c = '\r' || c = '\x0b' || c = '\x0c'

/-- Embedding of Python `str.strip()`: drop whitespace from both ends. -/
def pstrip (s : List Char) : List Char :=
  ((s.dropWhile isPySpace).reverse.dropWhile isPySpace).reverse

/-- Embedding of Python `str.split('\n')`: always returns at least one
(possibly empty) line; a trailing newline yields a trailing empty line. -/
def splitLines : List Char → List (List Char)
  | [] => [[]]
  | c :: rest =>
    if c = '\n' then [] :: splitLines rest
    else
      match splitLines rest with
      | [] => [[c]]
      | l :: ls => (c :: l) :: ls

/-- A line-comment span as produced by `extract_comments_from_code`:
the comment text together with `[start, stop)` character offsets into the
full cell source (`stop` stands for the Python `end_pos`). -/
structure CommentSpan where
  text : List Char
  start : Nat
  stop : Nat
deriving DecidableEq, Repr

/-- Core of `extract_comments_from_code`, one loop iteration per line.
`offset` is the running value of `sum(len(lines[j]) + 1 for j in range(i))`.
For each line that contains `'#'`, the characters after the first `'#'` are
stripped; when the result is non-empty a span is recorded whose start is
`offset + comment_start + 1` and whose stop is start plus the stripped
length, exactly as in the Python source. -/
def extractFrom (offset : Nat) : List (List Char) → List CommentSpan
  | [] => []
  | line :: rest =>
    let tail := extractFrom (offset + line.length + 1) rest
    match line.findIdx? (fun c => c = '#') with
    | none => tail
    | some comment_start =>
      let comment_text := pstrip (line.drop (comment_start + 1))
      if comment_text = [] then tail
      else
        let start_pos := offset + comment_start + 1
        ⟨comment_text, start_pos, start_pos + comment_text.length⟩ :: tail

/-- Embedding of `extract_comments_from_code` (src lines 223–238): split the
cell source on newlines and scan each line for a `'#'` comment marker. -/
def extract_comments_from_code (code_text : List Char) : List CommentSpan :=
  extractFrom 0 (splitLines code_text)

/-- Embedding of the comment write-back splice (src line 287):
`new_code = original_code[:start_pos] + translated_text + original_code[end_pos:]`. -/
def splice (s : List Char) (start stop : Nat) (t : List Char) : List Char :=
  s.take start ++ t ++ s.drop stop

/-- The substring of `s` at offsets `[start, stop)`, i.e. Python `s[start:stop]`. -/
def sublist (s : List Char) (start stop : Nat) : List Char :=
  (s.take stop).drop start

/-- The Python sum `sum(len(lines[j]) + 1 for j in range(i))`: the absolute offset of line
`i` inside the joined source, as computed by the Python scanner. -/
def sum_prev_lens (lines : List (List Char)) (i : Nat) : Nat :=
  ((lines.take i).map (fun l => l.length + 1)).sum

/-- The span (if any) a single line contributes, given the absolute offset
`base` of that line in the cell source. -/
def lineSpan (base : Nat) (line : List Char) : Option CommentSpan :=
  match line.findIdx? (fun c => c = '#') with
  | none => none
  | some m =>
    if pstrip (line.drop (m + 1)) = [] then none
    else some ⟨pstrip (line.drop (m + 1)), base + m + 1,
               base + m + 1 + (pstrip (line.drop (m + 1))).length⟩

/-- The comment scan as the specification words it (claim-side reference
definition, for comparison with `extract_comments_from_code`): for each
0-indexed line of the split source, take everything after the first `'#'`,
trim it, and when non-empty emit a span whose start is the sum of all
previous lines' lengths plus one separator each, plus the marker column
plus one. -/
def commentScanSpec (code : List Char) : List CommentSpan :=
  let lines := splitLines code
  (List.range lines.length).filterMap
    (fun i => lineSpan (sum_prev_lens lines i) (lines.getD i []))

/-- The quantity `(lines.map (length + 1)).sum`: length of the source plus one final
separator, used for offset bookkeeping. -/
def joined_len (ls : List (List Char)) : Nat :=
  (ls.map (fun l => l.length + 1)).sum

/- ===== PowerPoint document model ===== -/

/-- A formatted text run inside a slide paragraph.  `fmt` stands in for the
run's formatting attributes (font, size, colour…), which an assignment to
`run.text` leaves untouched; `text` is the run's text content. -/
structure Run where
  fmt : Nat
  text : List Char
deriving DecidableEq, Repr

/-- A paragraph: an ordered list of runs. -/
structure Paragraph where
  runs : List Run
deriving DecidableEq, Repr

/-- A text frame: an ordered list of paragraphs. -/
structure TextFrame where
  paragraphs : List Paragraph
deriving DecidableEq, Repr

/-- A shape tree as the walker observes it through python-pptx:
`group` is a `GroupShape` with child shapes (no text of its own);
`nongroup has_table tableRows text_frame` is any other shape, where
`has_table` models `hasattr(shape, 'has_table') and shape.has_table`
(`false` also covers shapes without the attribute), `tableRows` are the
table's rows of cells (each cell's `text_frame`, `none` when absent), and
`text_frame` models `shape.text_frame` when the attribute exists and is
not `None`. -/
inductive Shape where
  | group (shapes : List Shape)
  | nongroup (has_table : Bool) (tableRows : List (List (Option TextFrame)))
      (text_frame : Option TextFrame)

mutual

/-- Embedding of `iter_text_frames` (src lines 124–145): groups recurse into
their child shapes; a shape with `has_table` yields the text frames of its
table cells row by row, cell by cell, and returns; otherwise the shape's own
text frame (when present) is yielded. -/
def iter_text_frames : Shape → List TextFrame
  | Shape.group shapes => iter_text_frames_list shapes
  | Shape.nongroup has_table tableRows text_frame =>
    if has_table then tableRows.flatMap (fun row => row.filterMap id)
    else text_frame.toList

/-- The loop `yield from iter_text_frames(shp)` over the child shapes of a group, in
their defined order. -/
def iter_text_frames_list : List Shape → List TextFrame
  | [] => []
  | s :: ss => iter_text_frames s ++ iter_text_frames_list ss

end

/-- A slide: its shapes, and (when `has_notes_slide`) the shapes of its
notes page. -/
structure Slide where
  shapes : List Shape
  notes : Option (List Shape)

/-- The run collection performed for one text frame (src lines 154–158):
every run of every paragraph whose text is non-empty after stripping is
recorded together with its original text. -/
def frame_run_refs (tf : TextFrame) : List (Run × List Char) :=
  tf.paragraphs.flatMap (fun para =>
    para.runs.filterMap (fun run =>
      if pstrip run.text = [] then none else some (run, run.text)))

/-- Run collection for one slide-body shape: all frames from
`iter_text_frames`, then their runs. -/
def shape_run_refs (shape : Shape) : List (Run × List Char) :=
  (iter_text_frames shape).flatMap frame_run_refs

/-- The text frames the notes loop looks at for one notes shape
(src lines 164–165): only `shape.text_frame` when the attribute exists and
is not `None`; a `GroupShape` has no `text_frame` attribute, and neither
does a table graphic frame. -/
def notes_shape_frames : Shape → List TextFrame
  | Shape.group _ => []
  | Shape.nongroup _ _ text_frame => text_frame.toList

/-- Run collection for one notes-page shape (src lines 164–170). -/
def notes_shape_run_refs (shape : Shape) : List (Run × List Char) :=
  (notes_shape_frames shape).flatMap frame_run_refs

/-- Embedding of the run-collection loop of `process_powerpoint_file`
(src lines 151–170): for each slide, the body shapes are walked with
`iter_text_frames`, then (when notes are enabled and present) each notes
shape contributes the runs of its own text frame. -/
def collect_slide_runs (slides : List Slide) (include_notes : Bool) :
    List (Run × List Char) :=
  slides.flatMap (fun slide =>
    slide.shapes.flatMap shape_run_refs ++
      (if include_notes then
        match slide.notes with
        | some nshapes => nshapes.flatMap notes_shape_run_refs
        | none => []
      else []))

/- ===== Notebook model ===== -/

/-- The `cell_type` of an nbformat v4 cell. -/
inductive CellType where
  | markdown
  | code
  | raw
deriving DecidableEq, Repr

/-- A notebook cell: its `cell_type` and its `source` string. -/
structure Cell where
  cell_type : CellType
  source : List Char
deriving DecidableEq, Repr

/-- A write-back reference as recorded in `text_refs`:
`('markdown', cell_idx, None)` or `('comment', cell_idx, (start, end))`. -/
inductive TextRef where
  | markdown (cell_idx : Nat)
  | comment (cell_idx : Nat) (start stop : Nat)
deriving DecidableEq, Repr

/-- The texts and references one cell contributes (src lines 241–255):
a markdown cell whose source is truthy and non-empty after stripping
contributes its whole source; a code cell with truthy source contributes
each extracted comment whose text is non-empty after stripping; other
cells contribute nothing. -/
def collect_cell (cell_idx : Nat) (c : Cell) : List (List Char × TextRef) :=
  match c.cell_type with
  | CellType.markdown =>
    if c.source ≠ [] ∧ pstrip c.source ≠ [] then
      [(c.source, TextRef.markdown cell_idx)]
    else []
  | CellType.code =>
    if c.source ≠ [] then
      (extract_comments_from_code c.source).filterMap (fun sp =>
        if pstrip sp.text ≠ [] then
          some (sp.text, TextRef.comment cell_idx sp.start sp.stop)
        else none)
    else []
  | CellType.raw => []

/-- Embedding of the cell loop of `process_jupyter_notebook`
(src lines 241–255): `texts_to_translate` zipped with `text_refs`, in
notebook cell order. -/
def collect_notebook (cells : List Cell) : List (List Char × TextRef) :=
  (List.range cells.length).flatMap
    (fun i => collect_cell i (cells.getD i ⟨CellType.raw, []⟩))

/- ===== Translation client and batching ===== -/

/-- The DeepL wire response, abstracted: for a submitted batch the provider
returns the `translations` array, each entry being the optional `"text"`
field of one translation object. -/
abbrev Provider := List (List Char) → List (Option (List Char))

/-- The access `t.get("text", "")` on one translation object. -/
def extractTranslationText (o : Option (List Char)) : List Char :=
  o.getD []

/-- Embedding of `deepl_translate_batch` (src lines 61–85): an empty batch
short-circuits to an empty result before any request is built; otherwise one
POST is made and the `"text"` of every returned translation is collected in
response order.  The second component counts the HTTP requests performed
(0 or 1). -/
def deepl_translate_batch (provider : Provider) (texts : List (List Char)) :
    List (List Char) × Nat :=
  if texts = [] then ([], 0)
  else ((provider texts).map extractTranslationText, 1)

/-- The assignment `run.text = new_txt`: overwrite a run's text, leaving its formatting
untouched. -/
def set_run_text (r : Run) (t : List Char) : Run :=
  { r with text := t }

/-- Embedding of the PowerPoint write-back loop (src lines 185–186):
`for (run, _orig), new_txt in zip(batch_refs, translated): run.text = new_txt`. -/
def apply_run_translations (batch_refs : List (Run × List Char))
    (translated : List (List Char)) : List Run :=
  (batch_refs.zip translated).map (fun pr => set_run_text pr.1.1 pr.2)

/-- The constant `BATCH_SIZE = 45` (src line 58). -/
def BATCH_SIZE : Nat := 45

/-- Embedding of `range(0, total, BATCH_SIZE)` (src lines 181 / 268). -/
def batch_starts (total : Nat) : List Nat :=
  (List.range ((total + BATCH_SIZE - 1) / BATCH_SIZE)).map (fun k => k * BATCH_SIZE)

/-- The successive batches `texts[start:start + BATCH_SIZE]` submitted by the
batching loop. -/
def notebook_batches (texts : List (List Char)) : List (List (List Char)) :=
  (batch_starts texts.length).map
    (fun s => (texts.drop s).take BATCH_SIZE)

/-- Embedding of the notebook batching loop (src lines 268–273): the
concatenation, in loop order, of the translations of every batch. -/
def translated_texts (provider : Provider) (texts : List (List Char)) :
    List (List Char) :=
  (notebook_batches texts).flatMap
    (fun b => (deepl_translate_batch provider b).1)

/-- The number of HTTP requests the batching loop performs. -/
def provider_requests (provider : Provider) (texts : List (List Char)) : Nat :=
  ((notebook_batches texts).map
    (fun b => (deepl_translate_batch provider b).2)).sum

/- ===== Concrete instances used by counterexamples and witnesses ===== -/

/-- The code-cell source of the specification's offset example. -/
def c1src : List Char := "x = 1  # hello world\ny = 2  # bye".data

/-- A run holding the text `"Bonjour"`. -/
def c4run : Run := ⟨0, "Bonjour".data⟩

/-- A text frame holding one paragraph with the single run `c4run`. -/
def c4tf : TextFrame := ⟨[⟨[c4run]⟩]⟩

/-- A group shape containing one plain text shape whose frame is `c4tf`. -/
def c4group : Shape :=
  Shape.group [Shape.nongroup false [] (some c4tf)]

/-- A slide with no body shapes whose notes page holds only `c4group`. -/
def c4slide : Slide := ⟨[], some [c4group]⟩

/- ===== Helper lemmas ===== -/

theorem iter_text_frames_list_eq (ss : List Shape) :
    iter_text_frames_list ss = ss.flatMap iter_text_frames := by
  induction ss with
  | nil => rfl
  | cons s ss ih => simp [iter_text_frames_list, ih]

/- ===== Claim theorems ===== -/

/-- Claim C1: for the code cell source `"x = 1  # hello world\ny = 2  # bye"`
the walker yields two spans with comment texts `"hello world"` and `"bye"`
— that part holds — but splicing the translations `"bonjour monde"` /
`"au revoir"` back at the recorded offsets against the original source does
NOT reproduce `"x = 1  # bonjour monde\ny = 2  # au revoir"`: the recorded
start offsets point at the character right after `#` (the space), while the
span length is that of the trimmed text, so each splice is shifted one
character left of the comment and the result is the corrupted
`"x = 1  #bonjour monded\ny = 2  #au revoire"`. -/
theorem c1_comment_splice_bug :
    extract_comments_from_code c1src =
      [⟨"hello world".data, 8, 19⟩, ⟨"bye".data, 29, 32⟩] ∧
    splice (splice c1src 29 32 "au revoir".data) 8 19 "bonjour monde".data =
      "x = 1  #bonjour monded\ny = 2  #au revoire".data ∧
    splice (splice c1src 29 32 "au revoir".data) 8 19 "bonjour monde".data ≠
      "x = 1  # bonjour monde\ny = 2  # au revoir".data :=
  ⟨by decide, by decide, by decide⟩

/-- Claim C2: the claim that `source[start:end]` equals the span's comment
text fails: for the code cell source `"# a"` the scanner emits the span
`("a", 1, 2)`, and the substring at `[1, 2)` is the space `" "`, not `"a"` —
the offsets start right after the `#` marker and thus cover leading
whitespace instead of the trimmed text. -/
theorem c2_span_offsets_bug :
    extract_comments_from_code "# a".data = [⟨['a'], 1, 2⟩] ∧
    sublist "# a".data 1 2 = [' '] ∧
    sublist "# a".data 1 2 ≠ ['a'] :=
  ⟨by decide, by decide, by decide⟩

/-- Claim C9: `deepl_translate_batch` applied to an empty batch returns the
empty result and performs no HTTP request at all, for every provider. -/
theorem c9_empty_batch_no_request (provider : Provider) :
    deepl_translate_batch provider [] = ([], 0) :=
  rfl

/-- Claim C7: a shape identified as a table yields exactly the text frames
of its table cells (rows top-to-bottom, cells left-to-right); its own
top-level text frame is never yielded (the result does not depend on it),
while a non-table shape yields its own text frame. -/
theorem c7_table_text_frame_exclusive :
    (∀ (tableRows : List (List (Option TextFrame))) (text_frame : Option TextFrame),
       iter_text_frames (Shape.nongroup true tableRows text_frame) =
         tableRows.flatMap (fun row => row.filterMap id)) ∧
    (∀ (tableRows : List (List (Option TextFrame))) (text_frame : Option TextFrame),
       iter_text_frames (Shape.nongroup true tableRows text_frame) =
         iter_text_frames (Shape.nongroup true tableRows none)) ∧
    (∀ (tableRows : List (List (Option TextFrame))) (tf : TextFrame),
       iter_text_frames (Shape.nongroup false tableRows (some tf)) = [tf]) :=
  ⟨fun _ _ => by simp [iter_text_frames],
   fun _ _ => by simp [iter_text_frames],
   fun _ _ => by simp [iter_text_frames]⟩

/-- Claim C4 counterexample: a group shape sitting on a notes page does not
yield its nested text runs.  `c4slide` has an empty body and a notes page
holding only a group whose child shape carries the run `"Bonjour"`; the
walker collects nothing from it, although the very same shape on the slide
body (handled by the full traversal rule, `shape_run_refs`) yields the run.
This refutes the claim that the notes page gets the full traversal rule. -/
theorem c4_notes_group_counterexample :
    collect_slide_runs [c4slide] true = [] ∧
    shape_run_refs c4group = [(c4run, "Bonjour".data)] :=
  ⟨by decide, by decide⟩

/-- Claim C4, amended: when notes are enabled the walker iterates the shapes
of the notes page but applies only the plain text-container rule to each of
them: a notes shape contributes exactly the runs of its own text frame, a
group on the notes page contributes nothing (its children are not visited),
and a shape without a text frame — including a table graphic frame, whose
cells are not visited — contributes nothing; whereas on the slide body a
group recurses into its children. -/
theorem c4_notes_plain_text_rule_only :
    (∀ (shapes nshapes : List Shape),
       collect_slide_runs [⟨shapes, some nshapes⟩] true =
         shapes.flatMap shape_run_refs ++ nshapes.flatMap notes_shape_run_refs) ∧
    (∀ children, notes_shape_run_refs (Shape.group children) = []) ∧
    (∀ (has_table : Bool) (tableRows : List (List (Option TextFrame))),
       notes_shape_run_refs (Shape.nongroup has_table tableRows none) = []) ∧
    (∀ (has_table : Bool) (tableRows : List (List (Option TextFrame)))
       (tf : TextFrame),
       notes_shape_run_refs (Shape.nongroup has_table tableRows (some tf)) =
         frame_run_refs tf) ∧
    (∀ children, shape_run_refs (Shape.group children) =
       children.flatMap shape_run_refs) := by
  refine ⟨fun shapes nshapes => by simp [collect_slide_runs],
          fun children => by simp [notes_shape_run_refs, notes_shape_frames],
          fun ht rows => by simp [notes_shape_run_refs, notes_shape_frames],
          fun ht rows tf => by simp [notes_shape_run_refs, notes_shape_frames],
          fun children => ?_⟩
  simp only [shape_run_refs, iter_text_frames, iter_text_frames_list_eq]
  induction children with
  | nil => rfl
  | cons c cs ih =>
    simp [List.flatMap_append, ih, shape_run_refs]

theorem zip_getElem?_some {α β : Type} :
    ∀ (l : List α) (m : List β) (i : Nat) (a : α) (b : β),
      l[i]? = some a → m[i]? = some b → (l.zip m)[i]? = some (a, b) := by
  intro l
  induction l with
  | nil => intro m i a b h _; simp at h
  | cons x xs ih =>
    intro m i a b h1 h2
    cases m with
    | nil => simp at h2
    | cons y ys =>
      cases i with
      | zero =>
        simp only [List.getElem?_cons_zero, Option.some.injEq] at h1 h2
        simp [List.zip_cons_cons, h1, h2]
      | succ n =>
        simp only [List.getElem?_cons_succ] at h1 h2
        simpa [List.zip_cons_cons] using ih ys n a b h1 h2

/-- Claim C3: applied to a non-empty batch whose provider response mirrors
the request (same length, order preserved), the translation client returns
a same-length ordered sequence whose entry `i` is the `"text"` of response
entry `i`; with an element-wise provider this means output `i` is exactly
the translation of input `i`.  The write-back loop pairs `batch_refs` and
`translated` by position, so translation `i` is written into exactly the run
that produced original text `i`, leaving its formatting untouched. -/
theorem c3_translate_order_roundtrip (provider : Provider)
    (texts : List (List Char)) (hne : texts ≠ [])
    (hlen : (provider texts).length = texts.length) :
    ((deepl_translate_batch provider texts).1).length = texts.length ∧
    (∀ i : Nat, ((deepl_translate_batch provider texts).1)[i]? =
       ((provider texts)[i]?).map extractTranslationText) ∧
    (∀ g : List Char → Option (List Char),
       (deepl_translate_batch (fun ts => ts.map g) texts).1 =
         texts.map (fun t => extractTranslationText (g t))) ∧
    (∀ (batch_refs : List (Run × List Char)) (translated : List (List Char))
       (i : Nat) (r : Run) (orig t : List Char),
       batch_refs[i]? = some (r, orig) → translated[i]? = some t →
       (apply_run_translations batch_refs translated)[i]? =
         some (set_run_text r t)) := by
  refine ⟨?_, ?_, ?_, ?_⟩
  · simp [deepl_translate_batch, hne, hlen]
  · intro i
    simp [deepl_translate_batch, hne]
  · intro g
    simp [deepl_translate_batch, hne]
  · intro batch_refs translated i r orig t h1 h2
    have hz := zip_getElem?_some batch_refs translated i (r, orig) t h1 h2
    simp [apply_run_translations, hz]

/-- Witness for C3 at the one-element batch `["a"]` with the identity
element-wise provider. -/
theorem c3_translate_order_roundtrip_witness :
    ((deepl_translate_batch (fun ts => ts.map some) [['a']]).1).length =
      ([['a']] : List (List Char)).length :=
  (c3_translate_order_roundtrip (fun ts => ts.map some) [['a']]
    (by decide) (by decide)).1

theorem frame_run_refs_strip (tf : TextFrame) (p : Run × List Char)
    (hp : p ∈ frame_run_refs tf) : pstrip p.2 ≠ [] := by
  simp only [frame_run_refs, List.mem_flatMap, List.mem_filterMap] at hp
  obtain ⟨para, _, run, _, hif⟩ := hp
  by_cases h : pstrip run.text = []
  · rw [if_pos h] at hif
    exact absurd hif (by simp)
  · rw [if_neg h] at hif
    cases hif
    exact h

theorem collect_cell_strip (i : Nat) (c : Cell) (q : List Char × TextRef)
    (hq : q ∈ collect_cell i c) : pstrip q.1 ≠ [] := by
  cases c with
  | mk ct src =>
    cases ct with
    | markdown =>
      simp only [collect_cell] at hq
      by_cases h : src ≠ [] ∧ pstrip src ≠ []
      · rw [if_pos h] at hq
        simp only [List.mem_singleton] at hq
        rw [hq]
        exact h.2
      · rw [if_neg h] at hq
        simp at hq
    | code =>
      simp only [collect_cell] at hq
      by_cases h : src ≠ []
      · rw [if_pos h] at hq
        simp only [List.mem_filterMap] at hq
        obtain ⟨sp, _, hif⟩ := hq
        by_cases h2 : pstrip sp.text ≠ []
        · rw [if_pos h2] at hif
          cases hif
          exact h2
        · rw [if_neg h2] at hif
          cases hif
      · rw [if_neg h] at hq
        simp at hq
    | raw => simp [collect_cell] at hq

/-- Claim C6: every collected translatable unit has text that is non-empty
after stripping whitespace — for the slide walker (runs), and for the
notebook walker (markdown bodies and comment spans alike); whitespace-only
fragments are never collected. -/
theorem c6_units_nonempty_after_trim :
    (∀ (slides : List Slide) (include_notes : Bool) (p : Run × List Char),
       p ∈ collect_slide_runs slides include_notes → pstrip p.2 ≠ []) ∧
    (∀ (cells : List Cell) (q : List Char × TextRef),
       q ∈ collect_notebook cells → pstrip q.1 ≠ []) := by
  constructor
  · intro slides include_notes p hp
    simp only [collect_slide_runs, List.mem_flatMap] at hp
    obtain ⟨slide, _, hp⟩ := hp
    rw [List.mem_append] at hp
    cases hp with
    | inl h =>
      simp only [List.mem_flatMap, shape_run_refs] at h
      obtain ⟨sh, _, tf, _, h⟩ := h
      exact frame_run_refs_strip tf p h
    | inr h =>
      cases include_notes with
      | false => simp at h
      | true =>
        rw [if_pos rfl] at h
        cases hn : slide.notes with
        | none => rw [hn] at h; simp at h
        | some nshapes =>
          rw [hn] at h
          simp only [List.mem_flatMap, notes_shape_run_refs] at h
          obtain ⟨sh, _, tf, _, h⟩ := h
          exact frame_run_refs_strip tf p h
  · intro cells q hq
    simp only [collect_notebook, List.mem_flatMap] at hq
    obtain ⟨i, _, hq⟩ := hq
    exact collect_cell_strip i _ q hq

/-- Witness for C6: the run text `"hi"` collected from a one-shape slide is
non-empty after stripping. -/
theorem c6_units_nonempty_after_trim_witness : pstrip "hi".data ≠ [] :=
  c6_units_nonempty_after_trim.1
    [⟨[Shape.nongroup false [] (some ⟨[⟨[⟨0, "hi".data⟩]⟩]⟩)], none⟩] false
    (⟨0, "hi".data⟩, "hi".data) (by decide)

theorem deepl_batch_snd (provider : Provider) (b : List (List Char))
    (hb : b ≠ []) : (deepl_translate_batch provider b).2 = 1 := by
  simp [deepl_translate_batch, hb]

theorem deepl_batch_fst_map (g : List Char → Option (List Char))
    (b : List (List Char)) :
    (deepl_translate_batch (fun ts => ts.map g) b).1 =
      b.map (fun t => extractTranslationText (g t)) := by
  by_cases hb : b = []
  · subst hb; rfl
  · simp [deepl_translate_batch, hb]

/-- Claim C5: with exactly 46 collected units the batching loop submits
exactly two batches, of sizes 45 and 1 in that order, performs exactly two
provider requests, never submits a batch of more than `BATCH_SIZE = 45`
entries, and (for an element-wise provider) the concatenated results are
the translations of the 46 originals in the original collection order. -/
theorem c5_batching_boundary_46 (provider : Provider)
    (g : List Char → Option (List Char)) (texts : List (List Char))
    (h : texts.length = 46) :
    (notebook_batches texts).map List.length = [45, 1] ∧
    provider_requests provider texts = 2 ∧
    (∀ b ∈ notebook_batches texts, b.length ≤ BATCH_SIZE) ∧
    translated_texts (fun ts => ts.map g) texts =
      texts.map (fun t => extractTranslationText (g t)) ∧
    (translated_texts (fun ts => ts.map g) texts).length = 46 := by
  have hstarts : batch_starts texts.length = [0, 45] := by rw [h]; decide
  have hbatches : notebook_batches texts =
      [texts.take 45, (texts.drop 45).take 45] := by
    simp [notebook_batches, hstarts, BATCH_SIZE]
  have hlen1 : (texts.take 45).length = 45 := by
    rw [List.length_take, h]; omega
  have hdroplen : (texts.drop 45).length = 1 := by
    rw [List.length_drop, h]
  have hlen2 : ((texts.drop 45).take 45).length = 1 := by
    rw [List.length_take, hdroplen]; omega
  have htake2 : (texts.drop 45).take 45 = texts.drop 45 :=
    List.take_of_length_le (by rw [hdroplen]; omega)
  have hne1 : texts.take 45 ≠ [] := by
    intro e; rw [e] at hlen1; simp at hlen1
  have hne2 : (texts.drop 45).take 45 ≠ [] := by
    intro e; rw [e] at hlen2; simp at hlen2
  refine ⟨?_, ?_, ?_, ?_, ?_⟩
  · rw [hbatches]
    simp [hlen1, hlen2]
  · rw [provider_requests, hbatches]
    simp [deepl_batch_snd provider _ hne1, deepl_batch_snd provider _ hne2]
  · intro b hb
    rw [notebook_batches] at hb
    obtain ⟨s, _, rfl⟩ := List.mem_map.mp hb
    rw [List.length_take]
    exact Nat.min_le_left _ _
  · rw [translated_texts, hbatches]
    simp only [List.flatMap_cons, List.flatMap_nil, List.append_nil,
      deepl_batch_fst_map, htake2]
    rw [← List.map_append, List.take_append_drop]
  · rw [translated_texts, hbatches]
    simp only [List.flatMap_cons, List.flatMap_nil, List.append_nil,
      deepl_batch_fst_map, htake2]
    rw [← List.map_append, List.take_append_drop, List.length_map, h]

/-- Witness for C5 on a concrete 46-element unit list. -/
theorem c5_batching_boundary_46_witness :
    provider_requests (fun ts => ts.map some) (List.replicate 46 ['a']) = 2 :=
  (c5_batching_boundary_46 (fun ts => ts.map some) some
    (List.replicate 46 ['a']) (by simp)).2.1

theorem splitLines_ne_nil : ∀ s : List Char, splitLines s ≠ []
  | [] => by simp [splitLines]
  | c :: rest => by
    simp only [splitLines]
    by_cases h : c = '\n'
    · simp [h]
    · cases hr : splitLines rest with
      | nil => exact absurd hr (splitLines_ne_nil rest)
      | cons l ls => simp [h]

theorem extractFrom_cons (off : Nat) (l : List Char) (ls : List (List Char)) :
    extractFrom off (l :: ls) =
      (lineSpan off l).toList ++ extractFrom (off + l.length + 1) ls := by
  simp only [extractFrom, lineSpan]
  cases h : l.findIdx? (fun c => c = '#') with
  | none => simp
  | some m =>
    by_cases ht : pstrip (l.drop (m + 1)) = []
    · simp [ht]
    · simp [ht]

theorem sum_prev_lens_cons (l : List Char) (ls : List (List Char)) (i : Nat) :
    sum_prev_lens (l :: ls) (i + 1) = (l.length + 1) + sum_prev_lens ls i := by
  simp [sum_prev_lens, List.take_succ_cons]

theorem extractFrom_eq_range : ∀ (ls : List (List Char)) (off : Nat),
    extractFrom off ls =
      (List.range ls.length).filterMap
        (fun i => lineSpan (off + sum_prev_lens ls i) (ls.getD i []))
  | [], _ => rfl
  | l :: ls, off => by
    rw [extractFrom_cons, extractFrom_eq_range ls (off + l.length + 1)]
    rw [List.length_cons, List.range_succ_eq_map]
    have hf0 : lineSpan (off + sum_prev_lens (l :: ls) 0) ((l :: ls).getD 0 []) =
        lineSpan off l := by simp [sum_prev_lens]
    have hfun : ((fun i => lineSpan (off + sum_prev_lens (l :: ls) i)
          ((l :: ls).getD i [])) ∘ Nat.succ) =
        (fun i => lineSpan (off + l.length + 1 + sum_prev_lens ls i)
          (ls.getD i [])) := by
      funext i
      simp only [Function.comp_apply, sum_prev_lens_cons, List.getD_cons_succ]
      congr 1
      omega
    cases hsp : lineSpan off l with
    | none =>
      rw [List.filterMap_cons_none (by rw [hf0]; exact hsp), List.filterMap_map,
        hfun]
      simp
    | some sp =>
      rw [List.filterMap_cons_some (by rw [hf0]; exact hsp), List.filterMap_map,
        hfun]
      simp

/-- Claim C8: the comment scanner is exactly the naive per-line scan the
specification describes — for every line of the split source, take
everything after the first `'#'`, strip it, and emit a span exactly when
the result is non-empty, with offsets accumulated from the previous lines —
and it performs no string-literal analysis: for the source `s = "a#b"`,
whose `#` lies inside a quoted string, a span is still emitted. -/
theorem c8_naive_scan_eq_spec :
    (∀ code : List Char,
       extract_comments_from_code code = commentScanSpec code) ∧
    extract_comments_from_code "s = \"a#b\"".data = [⟨"b\"".data, 7, 9⟩] := by
  constructor
  · intro code
    rw [extract_comments_from_code, commentScanSpec, extractFrom_eq_range]
    simp
  · decide

theorem pstrip_length_le (s : List Char) : (pstrip s).length ≤ s.length := by
  unfold pstrip
  rw [List.length_reverse]
  calc ((s.dropWhile isPySpace).reverse.dropWhile isPySpace).length
      ≤ (s.dropWhile isPySpace).reverse.length :=
        (List.dropWhile_sublist isPySpace).length_le
    _ = (s.dropWhile isPySpace).length := List.length_reverse _
    _ ≤ s.length := (List.dropWhile_sublist isPySpace).length_le

theorem lineSpan_some_bounds (base : Nat) (line : List Char) (sp : CommentSpan)
    (h : lineSpan base line = some sp) :
    base < sp.start ∧ sp.stop = sp.start + sp.text.length ∧ sp.text ≠ [] ∧
    sp.stop ≤ base + line.length := by
  unfold lineSpan at h
  split at h
  · cases h
  · rename_i m hf
    split at h
    · cases h
    · rename_i ht
      cases h
      have hm : m < line.length :=
        (List.findIdx?_eq_some_iff_findIdx_eq.mp hf).1
      have hlt : (pstrip (line.drop (m + 1))).length ≤ line.length - (m + 1) := by
        have h1 := pstrip_length_le (line.drop (m + 1))
        simpa [List.length_drop] using h1
      dsimp only
      exact ⟨by omega, rfl, ht, by omega⟩

theorem joined_len_cons (l : List Char) (ls : List (List Char)) :
    joined_len (l :: ls) = (l.length + 1) + joined_len ls := by
  simp [joined_len]

theorem joined_len_splitLines : ∀ s : List Char,
    joined_len (splitLines s) = s.length + 1
  | [] => rfl
  | c :: rest => by
    by_cases h : c = '\n'
    · have hs : splitLines (c :: rest) = [] :: splitLines rest := by
        simp [splitLines, h]
      rw [hs, joined_len_cons]
      have := joined_len_splitLines rest
      simp only [List.length_nil, List.length_cons]
      omega
    · cases hr : splitLines rest with
      | nil => exact absurd hr (splitLines_ne_nil rest)
      | cons l ls =>
        have hs : splitLines (c :: rest) = (c :: l) :: ls := by
          simp only [splitLines, if_neg h, hr]
        rw [hs, joined_len_cons]
        have := joined_len_splitLines rest
        rw [hr, joined_len_cons] at this
        simp only [List.length_cons]
        omega

theorem mem_lineSpan_toList (base : Nat) (l : List Char) (sp : CommentSpan)
    (h : sp ∈ (lineSpan base l).toList) : lineSpan base l = some sp := by
  cases hl : lineSpan base l with
  | none => rw [hl] at h; simp at h
  | some sp2 =>
    rw [hl] at h
    simp only [Option.toList_some, List.mem_singleton] at h
    rw [h]

theorem extractFrom_mem_bounds : ∀ (ls : List (List Char)) (off : Nat)
    (sp : CommentSpan), sp ∈ extractFrom off ls →
    off < sp.start ∧ sp.stop = sp.start + sp.text.length ∧ sp.text ≠ [] ∧
    sp.stop + 1 ≤ off + joined_len ls
  | [], off, sp, h => by simp [extractFrom] at h
  | l :: ls, off, sp, h => by
    rw [extractFrom_cons, List.mem_append] at h
    cases h with
    | inl h =>
      obtain ⟨h1, h2, h3, h4⟩ :=
        lineSpan_some_bounds off l sp (mem_lineSpan_toList off l sp h)
      rw [joined_len_cons]
      exact ⟨h1, h2, h3, by omega⟩
    | inr h =>
      obtain ⟨h1, h2, h3, h4⟩ :=
        extractFrom_mem_bounds ls (off + l.length + 1) sp h
      rw [joined_len_cons]
      exact ⟨by omega, h2, h3, by omega⟩

theorem extractFrom_pairwise : ∀ (ls : List (List Char)) (off : Nat),
    List.Pairwise (fun a b => a.stop ≤ b.start) (extractFrom off ls)
  | [], off => by simp [extractFrom]
  | l :: ls, off => by
    rw [extractFrom_cons]
    apply List.pairwise_append.mpr
    refine ⟨?_, extractFrom_pairwise ls (off + l.length + 1), ?_⟩
    · cases hl : lineSpan off l <;> simp
    · intro a ha b hb
      have h4 :=
        (lineSpan_some_bounds off l a (mem_lineSpan_toList off l a ha)).2.2.2
      have hb1 := (extractFrom_mem_bounds ls (off + l.length + 1) b hb).1
      omega

/-- Claim C10: the spans emitted by the comment scanner are well-formed for
splicing: each satisfies `start ≤ stop ≤ length of the source` with
`stop - start` equal to the comment text's length and a non-empty text; the
spans are pairwise disjoint and in strictly increasing start order; and the
scan emits at most one span per line (the span list is a `filterMap` of an
`Option`-valued per-line function over the 0-indexed lines). -/
theorem c10_spans_well_formed (code : List Char) :
    (∀ sp ∈ extract_comments_from_code code,
       sp.start ≤ sp.stop ∧ sp.stop ≤ code.length ∧
       sp.stop - sp.start = sp.text.length ∧ sp.text ≠ []) ∧
    List.Pairwise (fun a b => a.stop ≤ b.start ∧ a.start < b.start)
      (extract_comments_from_code code) ∧
    extract_comments_from_code code =
      (List.range (splitLines code).length).filterMap
        (fun i => lineSpan (sum_prev_lens (splitLines code) i)
          ((splitLines code).getD i [])) := by
  have hjl : joined_len (splitLines code) = code.length + 1 :=
    joined_len_splitLines code
  refine ⟨?_, ?_, ?_⟩
  · intro sp hsp
    obtain ⟨h1, h2, h3, h4⟩ :=
      extractFrom_mem_bounds (splitLines code) 0 sp hsp
    exact ⟨by omega, by omega, by omega, h3⟩
  · apply List.Pairwise.imp_of_mem ?_ (extractFrom_pairwise (splitLines code) 0)
    intro a b ha hb hab
    obtain ⟨_, ha2, ha3, _⟩ :=
      extractFrom_mem_bounds (splitLines code) 0 a ha
    have : a.text.length ≠ 0 :=
      fun h0 => ha3 (List.eq_nil_of_length_eq_zero h0)
    exact ⟨hab, by omega⟩
  · rw [extract_comments_from_code, extractFrom_eq_range]
    simp

/-- Witness for C10 at the source `"x# a"`, whose single span is
`("a", 2, 3)`. -/
theorem c10_spans_well_formed_witness :
    (⟨['a'], 2, 3⟩ : CommentSpan).start ≤ (⟨['a'], 2, 3⟩ : CommentSpan).stop ∧
    (⟨['a'], 2, 3⟩ : CommentSpan).stop ≤ ("x# a".data).length ∧
    (⟨['a'], 2, 3⟩ : CommentSpan).stop - (⟨['a'], 2, 3⟩ : CommentSpan).start =
      (⟨['a'], 2, 3⟩ : CommentSpan).text.length ∧
    (⟨['a'], 2, 3⟩ : CommentSpan).text ≠ [] :=
  (c10_spans_well_formed "x# a".data).1 ⟨['a'], 2, 3⟩ (by decide)
